import Mathlib

/-!
# Verification of the spectra-watch core

A shallow embedding, in Lean 4, of the core of the `spectra-watch` log
watcher (Go): the fragment highlighter (`internal/highlight/highlight.go`),
the rule engine (`internal/rules`), the severity-filter pipeline
(`internal/pipeline`) and the file tailer (`internal/watch/tailer.go`).

Go strings are modelled as `List Char` wherever the code slices them by
index (Go slices strings by byte; at this abstraction a character stands
for a byte).  Go `int` span endpoints are modelled as `Int`.  Go functions
returning `(T, error)` become `T × Option E` or `Except E T`; a Go channel
consumed by a loop becomes the list of values the loop receives.

The Go `*regexp.Regexp` object is an external library value; it is
modelled as a structure of the three query functions the repository calls
on it (`FindAllStringIndex`, `FindStringSubmatch`, `SubexpNames`).
Concrete instances used in examples implement the library semantics for
literal patterns.
-/

namespace Spectra

/-! ## Fragment highlighter (internal/highlight/highlight.go) -/

/-- `Fragment` stores a segment of text with an emphasis flag. -/
structure Fragment where
  Text : List Char := []
  Emphasized : Bool := false
deriving Repr, DecidableEq

/-- Go `clamp(val, min, max int) int` from highlight.go. -/
def clamp (val lo hi : Int) : Int :=
  if val < lo then lo
  else if val > hi then hi
  else val

/-- Go `appendFragment(list []Fragment, frag Fragment) []Fragment`:
drop empty fragments, merge with the previous fragment when the emphasis
flag matches, otherwise append. -/
def appendFragment (l : List Fragment) (frag : Fragment) : List Fragment :=
  if frag.Text = [] then l
  else
    match l.getLast? with
    | some last =>
        if last.Emphasized = frag.Emphasized then
          l.dropLast ++ [⟨last.Text ++ frag.Text, last.Emphasized⟩]
        else l ++ [frag]
    | none => [frag]

/-- One iteration of the `for _, span := range spans` loop body of
`BuildFragments`, acting on the accumulated fragments and the cursor. -/
def buildStep (line : List Char) (acc : List Fragment × Nat) (span : Int × Int) :
    List Fragment × Nat :=
  let s := (clamp span.1 0 (line.length : Int)).toNat
  let e := (clamp span.2 0 (line.length : Int)).toNat
  let frags :=
    if acc.2 < s then
      appendFragment acc.1 ⟨(line.drop acc.2).take (s - acc.2), false⟩
    else acc.1
  let frags :=
    if s < e then appendFragment frags ⟨(line.drop s).take (e - s), true⟩
    else frags
  (frags, e)

/-- Go `BuildFragments(line string, spans [][2]int) []Fragment`.
The Go code sorts the spans by start with `sort.Slice` (unspecified on
ties); the model uses a stable insertion sort by start, which agrees with
it on every input whose starts are pairwise distinct. -/
def BuildFragments (line : List Char) (spans : List (Int × Int)) : List Fragment :=
  if spans = [] then [⟨line, false⟩]
  else
    let sorted := spans.insertionSort (fun a b => a.1 ≤ b.1)
    let acc := sorted.foldl (buildStep line) ([], 0)
    if acc.2 < line.length then
      appendFragment acc.1 ⟨line.drop acc.2, false⟩
    else acc.1

/-- Go `String(frags []Fragment) string`: concatenation of the fragment
texts, ignoring emphasis. -/
def fragString (frags : List Fragment) : List Char :=
  frags.foldr (fun f acc => f.Text ++ acc) []

/-! ### Lossless-partition development for the highlighter -/

theorem fragString_cons (f : Fragment) (l : List Fragment) :
    fragString (f :: l) = f.Text ++ fragString l := rfl

theorem fragString_append : ∀ a b : List Fragment,
    fragString (a ++ b) = fragString a ++ fragString b
  | [], _ => rfl
  | f :: rest, b => by
    rw [List.cons_append, fragString_cons, fragString_cons,
      fragString_append rest b, List.append_assoc]

/-- `appendFragment` may merge fragments but never changes the
concatenated text. -/
theorem fragString_appendFragment (l : List Fragment) (f : Fragment) :
    fragString (appendFragment l f) = fragString l ++ f.Text := by
  unfold appendFragment
  by_cases hT : f.Text = []
  · simp [hT, fragString]
  · simp only [if_neg hT]
    cases hL : l.getLast? with
    | none =>
      have : l = [] := List.getLast?_eq_none_iff.mp hL
      subst this
      simp [fragString]
    | some last =>
      have hsplit : l.dropLast ++ [last] = l :=
        List.dropLast_append_getLast? last hL
      by_cases hE : last.Emphasized = f.Emphasized
      · simp only [if_pos hE]
        conv_rhs => rw [← hsplit]
        rw [fragString_append, fragString_append, fragString_cons, fragString_cons]
        simp [fragString, List.append_assoc]
      · simp only [if_neg hE]
        rw [fragString_append]
        simp [fragString]

theorem clamp_nonneg (v hi : Int) (h : 0 ≤ hi) : 0 ≤ clamp v 0 hi := by
  unfold clamp; split_ifs <;> omega

theorem clamp_le_hi (v hi : Int) (h : 0 ≤ hi) : clamp v 0 hi ≤ hi := by
  unfold clamp; split_ifs <;> omega

theorem clamp_mono (a b hi : Int) (hab : a ≤ b) (h : 0 ≤ hi) :
    clamp a 0 hi ≤ clamp b 0 hi := by
  unfold clamp; split_ifs <;> omega

theorem slice_merge (line : List Char) (c s e : Nat) (h1 : c ≤ s) (h2 : s ≤ e) :
    (line.drop c).take (s - c) ++ (line.drop s).take (e - s) =
      (line.drop c).take (e - c) := by
  have he : e - c = (s - c) + (e - s) := by omega
  rw [he, List.take_add, List.drop_drop]
  have hs : c + (s - c) = s := by omega
  rw [hs]

/-- Heads of a span chain bound every later start from below. -/
theorem chain_head_le :
    ∀ (x : Int × Int) (rest : List (Int × Int)),
      (∀ p ∈ rest, p.1 ≤ p.2) →
      List.Chain' (fun a b : Int × Int => a.2 ≤ b.1) (x :: rest) →
      ∀ b ∈ rest, x.2 ≤ b.1
  | _, [], _, _, b, hb => absurd hb (List.not_mem_nil b)
  | x, y :: rest, hwf, hch, b, hb => by
    have hxy : x.2 ≤ y.1 := List.chain'_cons.mp hch |>.1
    rcases List.mem_cons.mp hb with rfl | hb
    · exact hxy
    · have hy : y.1 ≤ y.2 := hwf y (List.mem_cons_self y rest)
      have := chain_head_le y rest (fun p hp => hwf p (List.mem_cons_of_mem y hp))
        (List.chain'_cons.mp hch |>.2) b hb
      omega

/-- A well-formed span chain is sorted by start. -/
theorem chain_sorted :
    ∀ spans : List (Int × Int),
      (∀ p ∈ spans, p.1 ≤ p.2) →
      List.Chain' (fun a b : Int × Int => a.2 ≤ b.1) spans →
      List.Sorted (fun a b : Int × Int => a.1 ≤ b.1) spans
  | [], _, _ => List.sorted_nil
  | x :: rest, hwf, hch => by
    refine List.Pairwise.cons (fun b hb => ?_)
      (chain_sorted rest (fun p hp => hwf p (List.mem_cons_of_mem x hp))
        hch.tail)
    have hx : x.1 ≤ x.2 := hwf x (List.mem_cons_self x rest)
    have := chain_head_le x rest (fun p hp => hwf p (List.mem_cons_of_mem x hp)) hch b hb
    omega

/-- Invariant of the span loop in `BuildFragments`: starting from cursor
`c`, folding a well-formed chain of spans whose first clamped start is at
least `c` appends exactly the slice of the line from `c` to the final
cursor, which stays within the line. -/
theorem foldl_buildStep_invariant (line : List Char) :
    ∀ (spans : List (Int × Int)) (frags : List Fragment) (c : Nat),
      c ≤ line.length →
      (∀ p ∈ spans, p.1 ≤ p.2) →
      List.Chain' (fun a b : Int × Int => a.2 ≤ b.1) spans →
      (∀ p ∈ spans.head?, (c : Int) ≤ clamp p.1 0 (line.length : Int)) →
      fragString (spans.foldl (buildStep line) (frags, c)).1 =
          fragString frags ++
            (line.drop c).take ((spans.foldl (buildStep line) (frags, c)).2 - c) ∧
        c ≤ (spans.foldl (buildStep line) (frags, c)).2 ∧
        (spans.foldl (buildStep line) (frags, c)).2 ≤ line.length
  | [], frags, c, hc, _, _, _ => by
    refine ⟨?_, le_refl c, hc⟩
    simp
  | a :: rest, frags, c, hc, hwf, hch, hhd => by
    have hLnn : (0 : Int) ≤ (line.length : Int) := Int.natCast_nonneg _
    have ha : a.1 ≤ a.2 := hwf a (List.mem_cons_self a rest)
    set s := (clamp a.1 0 (line.length : Int)).toNat with hs_def
    set e := (clamp a.2 0 (line.length : Int)).toNat with he_def
    have hcs : c ≤ s := by
      have h1 := hhd a (by simp)
      have h2 := clamp_nonneg a.1 (line.length : Int) hLnn
      omega
    have hse : s ≤ e := by
      have := clamp_mono a.1 a.2 (line.length : Int) ha hLnn
      have h2 := clamp_nonneg a.1 (line.length : Int) hLnn
      omega
    have heL : e ≤ line.length := by
      have := clamp_le_hi a.2 (line.length : Int) hLnn
      omega
    have hstep : buildStep line (frags, c) a =
        (appendFragment
          (appendFragment frags ⟨(line.drop c).take (s - c), false⟩)
          ⟨(line.drop s).take (e - s), true⟩, e) := by
      have hgap : ¬ c < s →
          appendFragment frags ⟨(line.drop c).take (s - c), false⟩ = frags := by
        intro h
        have h0 : s - c = 0 := by omega
        simp [h0, appendFragment]
      have hemph : ∀ x : List Fragment, ¬ s < e →
          appendFragment x ⟨(line.drop s).take (e - s), true⟩ = x := by
        intro x h
        have h0 : e - s = 0 := by omega
        simp [h0, appendFragment]
      unfold buildStep
      simp only [← hs_def, ← he_def]
      by_cases h1 : c < s
      · by_cases h2 : s < e
        · simp [h1, h2]
        · simp [h1, h2, hemph]
      · by_cases h2 : s < e
        · simp [h1, h2, hgap h1]
        · simp [h1, h2, hgap h1, hemph]
    have hfrag2 :
        fragString (appendFragment
          (appendFragment frags ⟨(line.drop c).take (s - c), false⟩)
          ⟨(line.drop s).take (e - s), true⟩) =
        fragString frags ++ (line.drop c).take (e - c) := by
      rw [fragString_appendFragment, fragString_appendFragment, List.append_assoc,
        slice_merge line c s e hcs hse]
    have hch' : List.Chain' (fun a b : Int × Int => a.2 ≤ b.1) rest := hch.tail
    have hwf' : ∀ p ∈ rest, p.1 ≤ p.2 := fun p hp => hwf p (List.mem_cons_of_mem a hp)
    have hhead' : ∀ p ∈ rest.head?, (e : Int) ≤ clamp p.1 0 (line.length : Int) := by
      intro p hp
      cases rest with
      | nil => simp at hp
      | cons b rest2 =>
        have hpb : b = p := by simpa using hp
        have hab : a.2 ≤ p.1 := by
          have h1 : a.2 ≤ b.1 := List.chain'_cons.mp hch |>.1
          rw [hpb] at h1
          exact h1
        have h3 := clamp_mono a.2 p.1 (line.length : Int) hab hLnn
        have h2 := clamp_nonneg a.2 (line.length : Int) hLnn
        omega
    have IH := foldl_buildStep_invariant line rest
      (appendFragment
        (appendFragment frags ⟨(line.drop c).take (s - c), false⟩)
        ⟨(line.drop s).take (e - s), true⟩) e heL hwf' hch' hhead'
    rw [List.foldl_cons, hstep]
    refine ⟨?_, ?_, IH.2.2⟩
    · rw [IH.1, hfrag2, List.append_assoc,
        slice_merge line c e _ (by omega) IH.2.1]
    · omega

/-- Spans that are individually well formed (`start ≤ end`) and listed in
order with no overlap (`end ≤` next `start`). -/
def SpanChain (spans : List (Int × Int)) : Prop :=
  (∀ p ∈ spans, p.1 ≤ p.2) ∧
    List.Chain' (fun a b : Int × Int => a.2 ≤ b.1) spans

theorem spanChain_pair {a b : Int × Int}
    (h1 : a.1 ≤ a.2) (h2 : a.2 ≤ b.1) (h3 : b.1 ≤ b.2) : SpanChain [a, b] := by
  refine ⟨?_, List.Chain.cons h2 List.Chain.nil⟩
  intro p hp
  rcases List.mem_cons.mp hp with rfl | hp
  · exact h1
  · rcases List.mem_cons.mp hp with rfl | hp
    · exact h3
    · exact absurd hp (List.not_mem_nil p)

/-- C1 (amended): for every line and every list of `[start,end)` spans
that is ordered and non-overlapping — each span has `start ≤ end` and ends
no later than the next span starts, as the span lists produced by
`RuleSet.Match` are; endpoints may still lie outside the line —
concatenating the `Text` fields of all fragments returned by
`BuildFragments(line, spans)`, in order, equals the original line
exactly. -/
theorem C1_buildFragments_lossless (line : List Char) (spans : List (Int × Int))
    (h : SpanChain spans) :
    fragString (BuildFragments line spans) = line := by
  obtain ⟨hwf, hch⟩ := h
  unfold BuildFragments
  by_cases hnil : spans = []
  · simp [hnil, fragString]
  · simp only [if_neg hnil]
    have hsorted : spans.insertionSort (fun a b => a.1 ≤ b.1) = spans :=
      (chain_sorted spans hwf hch).insertionSort_eq
    rw [hsorted]
    have INV := foldl_buildStep_invariant line spans [] 0 (Nat.zero_le _) hwf hch
      (by
        intro p _
        simpa using clamp_nonneg p.1 (line.length : Int) (Int.natCast_nonneg _))
    set acc := spans.foldl (buildStep line) ([], 0) with hacc
    have h1 : fragString acc.1 = line.take acc.2 := by
      have := INV.1
      simpa [fragString] using this
    by_cases hlt : acc.2 < line.length
    · simp only [if_pos hlt]
      rw [fragString_appendFragment, h1, List.take_append_drop]
    · simp only [if_neg hlt]
      have : acc.2 = line.length := by
        have := INV.2.2
        omega
      rw [h1, this, List.take_length]

/-- C1 counterexample: on the line `"ab"` with the overlapping spans
`[0,2)` and `[1,2)`, `BuildFragments` emits the overlapped bytes twice
(`"abb"`), so the concatenation of the fragment texts is not the original
line — the loop sets the cursor to the last span's end instead of
truncating overlap. -/
theorem C1_counterexample :
    fragString (BuildFragments ['a', 'b'] [(0, 2), (1, 2)]) = ['a', 'b', 'b'] ∧
      fragString (BuildFragments ['a', 'b'] [(0, 2), (1, 2)]) ≠ ['a', 'b'] := by
  constructor
  · decide
  · decide

/-- Witness for `C1_buildFragments_lossless` at a concrete input: the
span list `[(-3,2), (4,99)]` (out-of-range endpoints, non-overlapping)
on the line `"hello"`. -/
theorem C1_witness :
    SpanChain [((-3 : Int), 2), (4, 99)] ∧
      fragString (BuildFragments ['h', 'e', 'l', 'l', 'o'] [((-3 : Int), 2), (4, 99)]) =
        ['h', 'e', 'l', 'l', 'o'] :=
  ⟨spanChain_pair (by decide) (by decide) (by decide),
    C1_buildFragments_lossless _ _
      (spanChain_pair (by decide) (by decide) (by decide))⟩

/-! ## Rule engine (internal/rules, src/unnamed/part_003) -/

/-- Go `orderedSeverities`, most urgent first. -/
def orderedSeverities : List String :=
  ["critical", "high", "medium", "low", "normal"]

/-- Go `SeverityRank(s Severity) int`: index in `orderedSeverities`, or its
length for an unknown severity (lower is more urgent). -/
def SeverityRank (s : String) : Nat :=
  orderedSeverities.findIdx (fun v => v == s)

/-- Go `severityScore`. -/
def severityScore (s : String) : Nat :=
  SeverityRank s

/-- Go `normalizeSeverity(s Severity) Severity`. -/
def normalizeSeverity (s : String) : String :=
  match s.toLower with
  | "critical" => "critical"
  | "high" => "high"
  | "medium" => "medium"
  | "" => "medium"
  | "med" => "medium"
  | "low" => "low"
  | "normal" => "normal"
  | _ => "medium"

/-- Go `MeetsThreshold(value, min Severity) bool`: value is at least as
urgent as min. -/
def MeetsThreshold (value mn : String) : Bool :=
  SeverityRank value ≤ SeverityRank mn

/-- The Go `*regexp.Regexp` is an external library object; the repository
calls exactly these three queries on it.  `findAll` models
`FindAllStringIndex(line, -1)` (index pairs of every non-overlapping
occurrence), `findSubmatch` models `FindStringSubmatch` (the whole text
and every group of the first occurrence, `[]` when there is none) and
`subexpNames` models `SubexpNames`. -/
structure Regexp where
  findAll : List Char → List (List Int)
  findSubmatch : List Char → List (List Char)
  subexpNames : List String

/-- Go `Rule`: a compiled regular expression with styling metadata. -/
structure Rule where
  Name : String := ""
  Pattern : String := ""
  regex : Regexp
  Severity : String := ""
  Color : String := ""
  Tags : List String := []
  Description : String := ""
  order : Nat := 0

/-- Go `Match` struct: the context returned when a rule triggers. -/
structure MatchData where
  Rule : Rule
  Captures : List (String × List Char)
  HighlightSpans : List (Int × Int)

/-- Go `RuleSet`. -/
structure RuleSet where
  Rules : List Rule

/-- Go `toPairs(spans [][]int) [][2]int`: keep exactly the length-2
entries, as pairs. -/
def toPairs (spans : List (List Int)) : List (Int × Int) :=
  spans.filterMap (fun sp =>
    match sp with
    | [a, b] => some (a, b)
    | _ => none)

/-- Go `captureMap(re, line)`: named captures of the first occurrence,
skipping index 0 (the whole match) and unnamed groups; `nil` (here `[]`)
when the pattern does not match at all. -/
def captureMap (re : Regexp) (line : List Char) : List (String × List Char) :=
  let ms := re.findSubmatch line
  if ms.length = 0 then []
  else
    ((re.subexpNames.zip ms).drop 1).filterMap
      (fun nm => if nm.1 = "" then none else some (nm.1, nm.2))

/-- The comparison used by `sortedRules`: severity rank ascending, then
declaration order ascending.  Go sorts with `sort.SliceStable` under the
strict version of this relation; a stable sort under the strict relation
coincides with a stable insertion sort under this reflexive closure. -/
def ruleLess (a b : Rule) : Prop :=
  severityScore a.Severity < severityScore b.Severity ∨
    (severityScore a.Severity = severityScore b.Severity ∧ a.order ≤ b.order)

instance : DecidableRel ruleLess := fun a b =>
  inferInstanceAs (Decidable (severityScore a.Severity < severityScore b.Severity ∨
    (severityScore a.Severity = severityScore b.Severity ∧ a.order ≤ b.order)))

instance : IsTotal Rule ruleLess :=
  ⟨fun a b => by unfold ruleLess; omega⟩

instance : IsTrans Rule ruleLess :=
  ⟨fun a b c hab hbc => by
    unfold ruleLess at hab hbc ⊢
    omega⟩

/-- Go `(rs RuleSet) sortedRules() []Rule`: a sorted copy of the rules,
severity rank ascending then declaration index ascending. -/
def RuleSet.sortedRules (rs : RuleSet) : List Rule :=
  rs.Rules.insertionSort ruleLess

/-- Go `(rs RuleSet) Match(line string) (Match, bool)`: first rule in
sorted order whose pattern occurs anywhere in the line. -/
def RuleSet.Match (rs : RuleSet) (line : List Char) : Option MatchData :=
  if rs.Rules.isEmpty then none
  else
    match rs.sortedRules.find? (fun r => !(r.regex.findAll line).isEmpty) with
    | some rule =>
        some ⟨rule, captureMap rule.regex line, toPairs (rule.regex.findAll line)⟩
    | none => none

/-- Go `(rs RuleSet) FilterByTags(tags []string) RuleSet`. -/
def RuleSet.FilterByTags (rs : RuleSet) (tags : List String) : RuleSet :=
  if tags.isEmpty then rs
  else
    let selected := (tags.filter (fun t => !(t == ""))).map String.toLower
    if selected.isEmpty then rs
    else ⟨rs.Rules.filter (fun r => r.Tags.any (fun t => selected.contains t.toLower))⟩

/-- Go `RuleDefinition`: the parsed YAML shape of one rule. -/
structure RuleDefinition where
  Name : String := ""
  Pattern : String := ""
  Severity : String := ""
  Color : String := ""
  Tags : List String := []
  Description : String := ""
deriving Repr, DecidableEq

/-- The two error shapes `Compile` produces: `fmt.Errorf("rule %q missing
pattern", name)` and `fmt.Errorf("compile %q: %w", name, err)`.  Each
names exactly one rule. -/
inductive CompileError where
  | missingPattern (name : String)
  | badPattern (name : String)
deriving Repr, DecidableEq

/-- The rule names a `CompileError` mentions. -/
def errorNames : CompileError → List String
  | .missingPattern n => [n]
  | .badPattern n => [n]

/-- The `for _, def := range defs` loop of Go `Compile`, with the early
returns; `compileRe` models the external `regexp.Compile` (`none` for a
syntactically invalid pattern). -/
def compileLoop (compileRe : String → Option Regexp) :
    List RuleDefinition → Nat → Except CompileError (List Rule)
  | [], _ => .ok []
  | d :: rest, idx =>
    if d.Pattern = "" then .error (.missingPattern d.Name)
    else
      match compileRe d.Pattern with
      | none => .error (.badPattern d.Name)
      | some re =>
        match compileLoop compileRe rest (idx + 1) with
        | .error e => .error e
        | .ok rules =>
            .ok ({ Name := d.Name, Pattern := d.Pattern, regex := re,
                   Severity := normalizeSeverity d.Severity, Color := d.Color,
                   Tags := d.Tags, Description := d.Description,
                   order := idx } :: rules)

/-- Go `Compile(defs []RuleDefinition) (RuleSet, error)`: on any failure
it returns `RuleSet{}` and the error of the first offending rule. -/
def Compile (compileRe : String → Option Regexp) (defs : List RuleDefinition) :
    RuleSet × Option CompileError :=
  match compileLoop compileRe defs 0 with
  | .ok rules => (⟨rules⟩, none)
  | .error e => (⟨[]⟩, some e)

/-! ### Literal-pattern regexps

Concrete `Regexp` values realizing the Go regexp library's documented
semantics for a literal pattern `LIT` and for a single named group
`(?P<name>LIT)`: unanchored search, all non-overlapping occurrences
scanned left to right, submatches taken from the first occurrence. -/

/-- The literal pattern `pat` occurs in `line` at byte offset `i`. -/
def matchesAt (pat line : List Char) (i : Nat) : Bool :=
  decide (i + pat.length ≤ line.length) && (line.drop i).take pat.length == pat

/-- Left-to-right scan collecting non-overlapping occurrences of `pat`
starting at offset `i`; `fuel` bounds the recursion and is always given
as at least `line.length + 1 - i`. -/
def litScan (pat line : List Char) : Nat → Nat → List (List Int)
  | 0, _ => []
  | fuel + 1, i =>
    if i ≤ line.length then
      if matchesAt pat line i then
        [(i : Int), ((i + pat.length : Nat) : Int)] ::
          litScan pat line fuel (i + max 1 pat.length)
      else litScan pat line fuel (i + 1)
    else []

/-- `FindAllStringIndex(line, -1)` of a literal pattern. -/
def litFindAll (pat line : List Char) : List (List Int) :=
  litScan pat line (line.length + 1) 0

/-- `pat` occurs somewhere in `line`. -/
def containsLit (pat line : List Char) : Bool :=
  !(litFindAll pat line).isEmpty

/-- The `Regexp` of a literal pattern (no capture groups). -/
def litRe (pat : List Char) : Regexp where
  findAll := fun line => litFindAll pat line
  findSubmatch := fun line =>
    match litFindAll pat line with
    | [] => []
    | _ :: _ => [pat]
  subexpNames := [""]

/-- The `Regexp` of `(?P<name>LIT)` for a literal `LIT`: one named group
capturing the whole (first) occurrence. -/
def litNamedRe (name : String) (pat : List Char) : Regexp where
  findAll := fun line => litFindAll pat line
  findSubmatch := fun line =>
    match litFindAll pat line with
    | [] => []
    | _ :: _ => [pat, pat]
  subexpNames := ["", name]

/-! ## Pipeline / severity filter (internal/pipeline, src/unnamed/part_002) -/

/-- Go `watch.LogEvent`: a single line read from a log file. -/
structure LogEvent where
  Path : String := ""
  Line : List Char := []
  Err : Option String := none

/-- Go `pipeline.HighlightedEvent` (without the timestamp, which is
`time.Now()` at emission).  Field defaults are the Go zero values. -/
structure HighlightedEvent where
  Path : String := ""
  Line : List Char := []
  RuleName : String := ""
  Severity : String := ""
  Color : String := ""
  Tags : List String := []
  Fragments : List Fragment := []
  Err : Option String := none

/-- Go `pipeline.Stream`. -/
structure Stream where
  rules : RuleSet
  showAll : Bool
  minSeverity : String

/-- Go `pipeline.New`. -/
def Stream.New (rs : RuleSet) (showAll : Bool) (mn : String) : Stream :=
  ⟨rs, showAll, mn⟩

/-- The per-event body of the goroutine loop in Go `Stream.Connect`:
`none` means the event is dropped (the loop emits nothing and
continues), `some` is the emitted `HighlightedEvent`. -/
def Stream.processEvent (s : Stream) (evt : LogEvent) : Option HighlightedEvent :=
  match evt.Err with
  | some _ => some { Path := evt.Path, Err := evt.Err }
  | none =>
    match s.rules.Match evt.Line with
    | some m =>
        if !s.showAll && !MeetsThreshold m.Rule.Severity s.minSeverity then none
        else
          some { Path := evt.Path, Line := evt.Line, RuleName := m.Rule.Name,
                 Severity := m.Rule.Severity, Color := m.Rule.Color,
                 Tags := m.Rule.Tags,
                 Fragments := BuildFragments evt.Line m.HighlightSpans }
    | none =>
        if !s.showAll then none
        else
          some { Path := evt.Path, Line := evt.Line, Severity := "normal",
                 Fragments := [⟨evt.Line, false⟩] }

/-! ## Tail source (internal/watch/tailer.go) -/

/-- One value received from the external tail library's `Lines` channel
(`*tail.Line`): the text of a line, or a read error. -/
structure TailLine where
  Text : List Char := []
  Err : Option String := none

/-- The per-file goroutine loop body of Go `TailFiles`, as a function
from the sequence of received `tail.Line` values to the sequence of
forwarded `LogEvent`s.  The list ends only when the `Lines` channel
closes or the context is cancelled; a read error is forwarded (with the
zero-value line text) and the loop continues. -/
def tailForward (p : String) : List TailLine → List LogEvent
  | [] => []
  | l :: rest =>
    (match l.Err with
     | some _ => { Path := p, Line := [], Err := l.Err }
     | none => { Path := p, Line := l.Text, Err := none }) :: tailForward p rest

/-- The synchronous part of Go `TailFiles(ctx, files)`: the started
sources feeding the merged channel (`none` models the `nil` channel) and
the returned error.  `tailFile` models the external `tail.TailFile`
creation call. -/
def startLoop (tailFile : String → Except String Unit) :
    List String → Except String (List String)
  | [] => .ok []
  | f :: rest =>
    match tailFile f with
    | .error e => .error ("tail " ++ f ++ ": " ++ e)
    | .ok _ =>
      match startLoop tailFile rest with
      | .error e => .error e
      | .ok started => .ok (f :: started)

/-- Go `TailFiles`: reject an empty file list up front; otherwise start a
source per file, failing on the first creation error. -/
def TailFiles (tailFile : String → Except String Unit) (files : List String) :
    Option (List String) × Option String :=
  if files.isEmpty then (none, some "no files provided")
  else
    match startLoop tailFile files with
    | .error e => (none, some e)
    | .ok started => (some started, none)

/-! ## Rule engine theorems -/

theorem find?_first {α : Type _} (p : α → Bool) :
    ∀ (l : List α) (i : Nat) (h : i < l.length),
      p (l.get ⟨i, h⟩) = true →
      (∀ j (hj : j < l.length), j < i → p (l.get ⟨j, hj⟩) = false) →
      l.find? p = some (l.get ⟨i, h⟩)
  | a :: l, 0, _, hp, _ => List.find?_cons_of_pos _ hp
  | a :: l, i + 1, h, hp, hb => by
    have ha : p a = false := hb 0 (Nat.succ_pos _) (Nat.succ_pos _)
    rw [List.find?_cons_of_neg _ (by simp [ha])]
    exact find?_first p l i (Nat.lt_of_succ_lt_succ h) hp
      (fun j hj hji => hb (j + 1) (Nat.succ_lt_succ hj) (Nat.succ_lt_succ hji))

/-- `Match` against a one-rule set, written out. -/
theorem Match_singleton (r : Rule) (line : List Char) :
    (RuleSet.mk [r]).Match line =
      (if (r.regex.findAll line).isEmpty then none
       else some ⟨r, captureMap r.regex line, toPairs (r.regex.findAll line)⟩) := by
  show (if ([r] : List Rule).isEmpty then none
    else match (RuleSet.mk [r]).sortedRules.find?
        (fun r => !(r.regex.findAll line).isEmpty) with
      | some rule =>
          some (⟨rule, captureMap rule.regex line,
            toPairs (rule.regex.findAll line)⟩ : MatchData)
      | none => none) = _
  have hs : (RuleSet.mk [r]).sortedRules = [r] := rfl
  rw [hs]
  by_cases hemp : (r.regex.findAll line).isEmpty
  · simp [List.find?, hemp]
  · simp [List.find?, hemp]

/-- C8: `Match` sorts a copy — the evaluation order `sortedRules` holds
exactly the rules of the set (`Rules` is never mutated: the embedding is
a pure function of the `RuleSet`), and the order is deterministic and
idempotent: sorting the already-sorted copy changes nothing, so the
evaluation order is identical across repeated `Match` calls. -/
theorem C8_sortedRules_stable :
    (∀ rs : RuleSet, rs.sortedRules.Perm rs.Rules) ∧
      (∀ rs : RuleSet, (RuleSet.mk rs.sortedRules).sortedRules = rs.sortedRules) := by
  constructor
  · intro rs
    exact List.perm_insertionSort ruleLess rs.Rules
  · intro rs
    exact (List.sorted_insertionSort ruleLess rs.Rules).insertionSort_eq

/-- The two-rule set of the spec's example: a high-severity rule matching
the literal `"A"` declared first, a critical-severity rule matching the
literal `"B"` declared second. -/
def ruleA : Rule :=
  { Name := "aye", Pattern := "A", regex := litRe ['A'], Severity := "high",
    order := 0 }

def ruleB : Rule :=
  { Name := "bee", Pattern := "B", regex := litRe ['B'], Severity := "critical",
    order := 1 }

def abRuleSet : RuleSet := ⟨[ruleA, ruleB]⟩

/-- C2: `Match` evaluates rules in `(severity rank ascending, declaration
index ascending)` order — returning the rule at the first position of
`sortedRules` whose pattern occurs in the line — and on the rule set
`[{severity high, index 0, pattern "A"}, {severity critical, index 1,
pattern "B"}]` any line containing both `"A"` and `"B"` yields the
critical `"B"` rule. -/
theorem C2_match_first_in_order :
    (∀ (rs : RuleSet) (line : List Char) (i : Nat) (h : i < rs.sortedRules.length),
        (!((rs.sortedRules.get ⟨i, h⟩).regex.findAll line).isEmpty) = true →
        (∀ j (hj : j < rs.sortedRules.length), j < i →
          (!((rs.sortedRules.get ⟨j, hj⟩).regex.findAll line).isEmpty) = false) →
        (rs.Match line).map MatchData.Rule = some (rs.sortedRules.get ⟨i, h⟩)) ∧
      (∀ line : List Char,
        containsLit ['A'] line = true → containsLit ['B'] line = true →
        (abRuleSet.Match line).map (fun m => m.Rule.Name) = some "bee") := by
  constructor
  · intro rs line i h hp hb
    have hne : rs.Rules.isEmpty = false := by
      cases hr : rs.Rules with
      | nil =>
        rw [RuleSet.sortedRules, hr] at h
        simp at h
      | cons a l => rfl
    have hfind := find?_first (fun r => !(r.regex.findAll line).isEmpty)
      rs.sortedRules i h hp hb
    unfold RuleSet.Match
    rw [hne, hfind]
    rfl
  · intro line hA hB
    have hsort : abRuleSet.sortedRules = [ruleB, ruleA] := by rfl
    have hpB : (!(ruleB.regex.findAll line).isEmpty) = true := by
      show (!(litFindAll ['B'] line).isEmpty) = true
      exact hB
    have hfind : List.find? (fun r => !(r.regex.findAll line).isEmpty)
        [ruleB, ruleA] = some ruleB :=
      List.find?_cons_of_pos _ hpB
    unfold RuleSet.Match
    rw [hsort, hfind]
    rfl

/-- Witness for `C2_match_first_in_order` on the line `"xBxA"`, which
contains both letters: the critical `"B"` rule wins although it is
declared second. -/
theorem C2_witness :
    containsLit ['A'] ['x', 'B', 'x', 'A'] = true ∧
      containsLit ['B'] ['x', 'B', 'x', 'A'] = true ∧
      (abRuleSet.Match ['x', 'B', 'x', 'A']).map (fun m => m.Rule.Name) =
        some "bee" :=
  ⟨by decide, by decide,
    C2_match_first_in_order.2 ['x', 'B', 'x', 'A'] (by decide) (by decide)⟩

/-! ### A one-character-class regexp, for capture semantics

The Go library's `(?P<name>[c])` pattern: every position whose character
satisfies the class is an occurrence (single-character occurrences never
overlap), and `FindStringSubmatch` reports the first occurrence. -/

/-- `FindAllStringIndex` of a single-character class. -/
def classFindAll (cls : Char → Bool) (line : List Char) : List (List Int) :=
  ((List.range line.length).filter (fun i => cls (line.getD i ' '))).map
    (fun i => [(i : Int), (i : Int) + 1])

/-- The `Regexp` of `(?P<name>[c])` for a character class `c`. -/
def classRe (name : String) (cls : Char → Bool) : Regexp where
  findAll := fun line => classFindAll cls line
  findSubmatch := fun line =>
    match (List.range line.length).find? (fun i => cls (line.getD i ' ')) with
    | some i => [[line.getD i ' '], [line.getD i ' ']]
    | none => []
  subexpNames := ["", name]

/-- A one-rule set over the class pattern, severity `"high"`. -/
def classRule (n : String) (cls : Char → Bool) : Rule :=
  { Name := n, regex := classRe n cls, Severity := "high", order := 0 }

theorem toPairs_classFindAll (cls : Char → Bool) (line : List Char) :
    toPairs (classFindAll cls line) =
      ((List.range line.length).filter (fun i => cls (line.getD i ' '))).map
        (fun i => ((i : Int), (i : Int) + 1)) := by
  unfold toPairs classFindAll
  rw [List.filterMap_map]
  exact congrFun (List.filterMap_eq_map fun i => ((i : Int), (i : Int) + 1)) _

/-- C6: when `Match` has no winner it reports no match; when it has one,
the returned captures are `captureMap` of the winning rule (the
submatches of the first occurrence) and the spans are the index pairs of
all occurrences of the winning rule's pattern; concretely, for the
one-rule set over `(?P<n>[cls])`, the capture is the character at the
first matching position only, while the spans cover every matching
position. -/
theorem C6_match_content :
    (∀ (rs : RuleSet) (line : List Char),
        (∀ r ∈ rs.Rules, (r.regex.findAll line).isEmpty = true) →
        rs.Match line = none) ∧
      (∀ (rs : RuleSet) (line : List Char) (m : MatchData),
        rs.Match line = some m →
        m.Captures = captureMap m.Rule.regex line ∧
          m.HighlightSpans = toPairs (m.Rule.regex.findAll line) ∧
          (m.Rule.regex.findAll line).isEmpty = false ∧
          m.Rule ∈ rs.Rules) ∧
      (∀ (n : String) (cls : Char → Bool) (line : List Char) (m : MatchData)
          (i : Nat) (hi : i < line.length),
        n ≠ "" →
        cls (line.get ⟨i, hi⟩) = true →
        (∀ j (hj : j < line.length), j < i → cls (line.get ⟨j, hj⟩) = false) →
        (RuleSet.mk [classRule n cls]).Match line = some m →
        m.Captures = [(n, [line.get ⟨i, hi⟩])] ∧
          m.HighlightSpans =
            ((List.range line.length).filter (fun j => cls (line.getD j ' '))).map
              (fun j => ((j : Int), (j : Int) + 1))) := by
  refine ⟨?_, ?_, ?_⟩
  · intro rs line hall
    unfold RuleSet.Match
    by_cases hne : rs.Rules.isEmpty
    · simp [hne]
    · have hfind : rs.sortedRules.find?
          (fun r => !(r.regex.findAll line).isEmpty) = none := by
        rw [List.find?_eq_none]
        intro r hr
        have hmem : r ∈ rs.Rules :=
          (List.perm_insertionSort ruleLess rs.Rules).mem_iff.mp hr
        simp [hall r hmem]
      simp [hne, hfind]
  · intro rs line m hm
    unfold RuleSet.Match at hm
    by_cases hne : rs.Rules.isEmpty
    · simp [hne] at hm
    · simp only [hne, Bool.false_eq_true, if_false] at hm
      cases hf : rs.sortedRules.find? (fun r => !(r.regex.findAll line).isEmpty) with
      | none => rw [hf] at hm; exact absurd hm (by simp)
      | some rule =>
        rw [hf] at hm
        have hm' : m = ⟨rule, captureMap rule.regex line,
            toPairs (rule.regex.findAll line)⟩ := by
          exact (Option.some.injEq _ _).mp hm.symm
        subst hm'
        have hp := List.find?_some hf
        have hmem : rule ∈ rs.Rules :=
          (List.perm_insertionSort ruleLess rs.Rules).mem_iff.mp
            (List.mem_of_find?_eq_some hf)
        refine ⟨rfl, rfl, ?_, hmem⟩
        simpa using hp
  · intro n cls line m i hi hn hcls hfirst hm
    rw [Match_singleton] at hm
    by_cases hemp : ((classRule n cls).regex.findAll line).isEmpty
    · rw [if_pos hemp] at hm
      exact absurd hm (by simp)
    · rw [if_neg hemp] at hm
      have hm' : m = ⟨classRule n cls, captureMap (classRule n cls).regex line,
          toPairs ((classRule n cls).regex.findAll line)⟩ :=
        (Option.some.injEq _ _).mp hm.symm
      subst hm'
      constructor
      · have hfind : (List.range line.length).find?
            (fun j => cls (line.getD j ' ')) = some i := by
          have hlen : i < (List.range line.length).length := by
            simpa using hi
          have hgeti : (List.range line.length).get ⟨i, hlen⟩ = i := by
            simp [List.get_eq_getElem]
          have hp : (fun j => cls (line.getD j ' '))
              ((List.range line.length).get ⟨i, hlen⟩) = true := by
            rw [hgeti]
            show cls (line.getD i ' ') = true
            rw [List.getD_eq_getElem?_getD, List.getElem?_eq_getElem hi]
            exact hcls
          have hb : ∀ j (hj : j < (List.range line.length).length), j < i →
              (fun j => cls (line.getD j ' '))
                ((List.range line.length).get ⟨j, hj⟩) = false := by
            intro j hj hji
            have hj' : j < line.length := by simpa using hj
            have hgetj : (List.range line.length).get ⟨j, hj⟩ = j := by
              simp [List.get_eq_getElem]
            rw [hgetj]
            show cls (line.getD j ' ') = false
            rw [List.getD_eq_getElem?_getD, List.getElem?_eq_getElem hj']
            exact hfirst j hj' hji
          have := find?_first (fun j => cls (line.getD j ' '))
            (List.range line.length) i hlen hp hb
          rw [this, hgeti]
        show captureMap (classRe n cls) line = _
        unfold captureMap
        show (let ms := (classRe n cls).findSubmatch line
          if ms.length = 0 then []
          else ((["", n].zip ms).drop 1).filterMap
            (fun nm => if nm.1 = "" then none else some (nm.1, nm.2))) = _
        have hsub : (classRe n cls).findSubmatch line =
            [[line.getD i ' '], [line.getD i ' ']] := by
          show (match (List.range line.length).find?
              (fun j => cls (line.getD j ' ')) with
            | some j => [[line.getD j ' '], [line.getD j ' ']]
            | none => []) = _
          rw [hfind]
        have hgd : line.getD i ' ' = line.get ⟨i, hi⟩ := by
          rw [List.getD_eq_getElem?_getD, List.getElem?_eq_getElem hi]
          rfl
        rw [hsub, hgd]
        simp [List.zip, List.zipWith, hn]
      · show toPairs ((classRe n cls).findAll line) = _
        exact toPairs_classFindAll cls line

/-- Witness for `C6_match_content`: its no-winner clause at the concrete
rule set of `C2` and the line `"z"`, which neither pattern matches. -/
theorem C6_witness :
    (∀ r ∈ abRuleSet.Rules, (r.regex.findAll ['z']).isEmpty = true) ∧
      abRuleSet.Match ['z'] = none :=
  ⟨by decide, C6_match_content.1 abRuleSet ['z'] (by decide)⟩

/-! ## Compile theorems (C3) -/

/-- A rule definition `Compile` rejects: empty pattern or a pattern the
regexp compiler refuses. -/
def defBad (cre : String → Option Regexp) (d : RuleDefinition) : Bool :=
  d.Pattern == "" || (cre d.Pattern).isNone

/-- The error `Compile` produces for an offending definition. -/
def defErr (d : RuleDefinition) : CompileError :=
  if d.Pattern = "" then .missingPattern d.Name else .badPattern d.Name

theorem compileLoop_error :
    ∀ (cre : String → Option Regexp) (defs : List RuleDefinition)
      (d : RuleDefinition) (idx : Nat),
      defs.find? (defBad cre) = some d →
      compileLoop cre defs idx = .error (defErr d)
  | _, [], _, _, h => by simp [List.find?] at h
  | cre, x :: rest, d, idx, h => by
    unfold compileLoop
    by_cases hbad : defBad cre x
    · rw [List.find?_cons_of_pos _ hbad] at h
      have hxd : x = d := Option.some.inj h
      subst hxd
      by_cases hpat : x.Pattern = ""
      · simp [hpat, defErr]
      · have hnone : (cre x.Pattern).isNone := by
          unfold defBad at hbad
          rcases Bool.or_eq_true_iff.mp hbad with h1 | h1
          · exact absurd (by simpa using h1) hpat
          · exact h1
        rw [if_neg hpat]
        cases hcre : cre x.Pattern with
        | none => simp [defErr, hpat]
        | some re => rw [hcre] at hnone; simp at hnone
    · rw [List.find?_cons_of_neg _ hbad] at h
      have hx : ¬ x.Pattern = "" ∧ ¬ (cre x.Pattern).isNone = true := by
        unfold defBad at hbad
        constructor
        · intro hc
          exact hbad (by simp [hc])
        · intro hc
          exact hbad (by simp [hc])
      rw [if_neg hx.1]
      cases hcre : cre x.Pattern with
      | none => rw [hcre] at hx; exact absurd rfl hx.2
      | some re =>
        rw [compileLoop_error cre rest d (idx + 1) h]

/-- C3 (amended): if any rule definition has an empty pattern or a
pattern the regexp compiler rejects, `Compile` fails the whole compile,
returning an error naming the first offending rule in declaration order
(not every offending rule), and the returned `RuleSet` is empty. -/
theorem C3_compile_aborts_on_first_bad
    (cre : String → Option Regexp) (defs : List RuleDefinition)
    (d : RuleDefinition) (h : defs.find? (defBad cre) = some d) :
    Compile cre defs = (⟨[]⟩, some (defErr d)) := by
  unfold Compile
  rw [compileLoop_error cre defs d 0 h]

/-- C3 counterexample: with two offending definitions (`"a"` and `"b"`,
both pattern-less), the compile error names only `"a"` — it does not
aggregate every offending rule, refuting the claim as stated (the empty
returned `RuleSet` part does hold). -/
theorem C3_counterexample :
    Compile (fun _ => none)
        [({ Name := "a" } : RuleDefinition), { Name := "b" }] =
      (⟨[]⟩, some (.missingPattern "a")) ∧
      "b" ∉ errorNames (CompileError.missingPattern "a") := by
  exact ⟨rfl, by decide⟩

/-- Witness for `C3_compile_aborts_on_first_bad` at the two-offender
input of the counterexample. -/
theorem C3_witness :
    ([({ Name := "a" } : RuleDefinition), { Name := "b" }].find?
        (defBad (fun _ => none)) = some { Name := "a" }) ∧
      Compile (fun _ => none) [({ Name := "a" } : RuleDefinition), { Name := "b" }] =
        (⟨[]⟩, some (defErr { Name := "a" })) :=
  ⟨rfl, C3_compile_aborts_on_first_bad (fun _ => none) _ _ rfl⟩

/-! ## Pipeline theorems (C4, C5) -/

/-- C4: an error-free event whose line matches a rule whose severity rank
is strictly greater (less urgent) than the configured minimum produces no
output event when `showAll` is off. -/
theorem C4_below_threshold_dropped
    (s : Stream) (evt : LogEvent) (m : MatchData)
    (hErr : evt.Err = none)
    (hMatch : s.rules.Match evt.Line = some m)
    (hShow : s.showAll = false)
    (hRank : SeverityRank s.minSeverity < SeverityRank m.Rule.Severity) :
    s.processEvent evt = none := by
  have hmt : MeetsThreshold m.Rule.Severity s.minSeverity = false := by
    unfold MeetsThreshold
    simp only [decide_eq_false_iff_not]
    omega
  unfold Stream.processEvent
  simp only [hErr, hMatch, hShow, hmt]
  rfl

/-- The medium-severity one-rule stream of the spec's example, with
`showAll = false` and minimum severity `"high"`. -/
def ruleMed : Rule :=
  { Name := "med", Pattern := "x", regex := litRe ['x'], Severity := "medium",
    order := 0 }

def medStream : Stream := ⟨⟨[ruleMed]⟩, false, "high"⟩

/-- Witness for `C4_below_threshold_dropped`: `showAll = false`,
`minSeverity = "high"`, and the line `"x"` matching the medium rule is
dropped. -/
theorem C4_witness :
    SeverityRank "high" < SeverityRank "medium" ∧
      medStream.processEvent { Path := "p", Line := ['x'] } = none :=
  ⟨by decide,
    C4_below_threshold_dropped medStream { Path := "p", Line := ['x'] }
      ⟨ruleMed, captureMap (litRe ['x']) ['x'], toPairs (litFindAll ['x'] ['x'])⟩
      rfl rfl rfl (by decide)⟩

/-- C5: an event carrying an error is always emitted, carrying that
error, whatever the `showAll` flag and minimum severity are. -/
theorem C5_error_events_always_emitted
    (s : Stream) (evt : LogEvent) (e : String)
    (h : evt.Err = some e) :
    (s.processEvent evt).map HighlightedEvent.Err = some (some e) := by
  unfold Stream.processEvent
  simp [h]

/-- Witness for `C5_error_events_always_emitted` on a stream that would
drop every matched or unmatched line (`showAll = false`, threshold
`"high"`): the error event is still emitted. -/
theorem C5_witness :
    ({ Path := "p", Err := some "read failure" } : LogEvent).Err =
        some "read failure" ∧
      (medStream.processEvent { Path := "p", Err := some "read failure" }).map
          HighlightedEvent.Err = some (some "read failure") :=
  ⟨rfl, C5_error_events_always_emitted medStream _ "read failure" rfl⟩

/-! ## FilterByTags theorem (C7) -/

/-- C7: an all-blank (or empty) requested tag list returns the rule set
unmodified; otherwise `FilterByTags` keeps exactly the rules having at
least one tag case-insensitively equal to a non-blank member of the
requested list. -/
theorem C7_filter_by_tags :
    (∀ (rs : RuleSet) (tags : List String),
        (∀ t ∈ tags, t = "") → rs.FilterByTags tags = rs) ∧
      (∀ (rs : RuleSet) (tags : List String) (q0 : String),
        q0 ∈ tags → q0 ≠ "" →
        (rs.FilterByTags tags).Rules =
            rs.Rules.filter (fun r => r.Tags.any (fun t =>
              ((tags.filter (fun q => !(q == ""))).map String.toLower).contains
                t.toLower)) ∧
          ∀ r : Rule,
            r.Tags.any (fun t =>
              ((tags.filter (fun q => !(q == ""))).map String.toLower).contains
                t.toLower) = true ↔
              ∃ t ∈ r.Tags, ∃ q ∈ tags, q ≠ "" ∧ t.toLower = q.toLower) := by
  constructor
  · intro rs tags hall
    unfold RuleSet.FilterByTags
    by_cases h0 : tags.isEmpty
    · rw [if_pos h0]
    · have hf : tags.filter (fun q => !(q == "")) = [] := by
        rw [List.filter_eq_nil_iff]
        intro t ht
        simp [hall t ht]
      simp [h0, hf]
  · intro rs tags q0 hq0 hq0ne
    have h0 : tags.isEmpty = false :=
      List.isEmpty_eq_false.mpr (List.ne_nil_of_mem hq0)
    have hmem : q0 ∈ tags.filter (fun q => !(q == "")) :=
      List.mem_filter.mpr ⟨hq0, by simp [hq0ne]⟩
    have hsel : ((tags.filter (fun q => !(q == ""))).map String.toLower).isEmpty
        = false :=
      List.isEmpty_eq_false.mpr (by
        intro hc
        rw [List.map_eq_nil_iff] at hc
        rw [hc] at hmem
        exact List.not_mem_nil q0 hmem)
    constructor
    · unfold RuleSet.FilterByTags
      simp [h0, hsel]
    · intro r
      constructor
      · intro h
        obtain ⟨t, ht, hcont⟩ := List.any_eq_true.mp h
        obtain ⟨a, hamem, hbeq⟩ := List.contains_iff_exists_mem_beq.mp hcont
        obtain ⟨q, hqf, hqeq⟩ := List.mem_map.mp hamem
        obtain ⟨hqtags, hqne⟩ := List.mem_filter.mp hqf
        refine ⟨t, ht, q, hqtags, ?_, ?_⟩
        · simpa using hqne
        · rw [eq_of_beq hbeq, ← hqeq]
      · rintro ⟨t, ht, q, hq, hqne, heq⟩
        refine List.any_eq_true.mpr ⟨t, ht, ?_⟩
        refine List.contains_iff_exists_mem_beq.mpr ⟨q.toLower, ?_, ?_⟩
        · exact List.mem_map.mpr ⟨q, List.mem_filter.mpr ⟨hq, by simp [hqne]⟩, rfl⟩
        · simp [heq]

/-- A rule carrying the tags `["DB", "auth"]`, for the C7 witness. -/
def tagRule : Rule :=
  { Name := "t1", regex := litRe ['x'], Severity := "low",
    Tags := ["DB", "auth"], order := 0 }

def tagRS : RuleSet := ⟨[tagRule]⟩

/-- Witness for `C7_filter_by_tags`: an all-blank request returns the
set unchanged, and the request `["db"]` filters by case-insensitive tag
equality. -/
theorem C7_witness :
    tagRS.FilterByTags ["", ""] = tagRS ∧
      (tagRS.FilterByTags ["db"]).Rules =
        tagRS.Rules.filter (fun r => r.Tags.any (fun t =>
          (((["db"] : List String).filter (fun q => !(q == ""))).map
            String.toLower).contains t.toLower)) :=
  ⟨C7_filter_by_tags.1 tagRS ["", ""] (by decide),
    (C7_filter_by_tags.2 tagRS ["db"] "db" (by decide) (by decide)).1⟩

/-! ## Tail source theorems (C9, C10) -/

/-- C9: a read error never terminates a running tail source's event
sequence — the error is forwarded as a `LogEvent` with the error field
set and the line empty, and the loop keeps consuming; in particular every
received line value, error or not, yields exactly one forwarded event. -/
theorem C9_tail_error_never_terminates :
    (∀ (p : String) (t : List Char) (e : String) (rest : List TailLine),
        tailForward p ({ Text := t, Err := some e } :: rest) =
          { Path := p, Line := [], Err := some e } :: tailForward p rest) ∧
      (∀ (p : String) (msgs : List TailLine),
        (tailForward p msgs).length = msgs.length) := by
  constructor
  · intro p t e rest
    rfl
  · intro p msgs
    induction msgs with
    | nil => rfl
    | cons l rest ih => simp [tailForward, ih]

/-- C10: `TailFiles` on an empty file list fails immediately — `nil`
channel (here `none`), the error `"no files provided"`, and no sources
started. -/
theorem C10_tailFiles_rejects_empty :
    ∀ tailFile : String → Except String Unit,
      TailFiles tailFile [] = (none, some "no files provided") := by
  intro tf
  rfl

end Spectra
